import Mathlib

/-!
Shallow embedding of the bakery ordering backend (`backend/app.py`,
`backend/models.py`).

The persistent database is a record of table contents (`DBState`).  Each
endpoint is a function from the committed state (plus the authenticated
caller's `cafe_id` and the request arguments) to a result together with the
committed state after the request.  SQLAlchemy sessions are per request
(`get_db` yields a fresh `SessionLocal` and closes it in `finally`), with
`autocommit=False`: mutations made on ORM objects become visible to other
requests only at `db.commit()`, and a request that raises an `HTTPException`
before committing leaves the committed state untouched (the session is
discarded on close).  The embedding therefore returns the unchanged input
state on every error path that the code reaches before its `commit()`.

Quantities and prices are SQL integers / fixed-point decimals; both are
modelled as `Int` (prices in fixed-point units), so that negative values are
representable and non-negativity is a provable property, not one forced by
the type.
-/

namespace Bakery

/-- `models.OrderStatus`: the order lifecycle enum. -/
inductive OrderStatus where
  | pending
  | confirmed
  | canceled
deriving DecidableEq, Repr

/-- The string `.value` of a status, as the endpoints serialize it. -/
def OrderStatus.value : OrderStatus → String
  | .pending => "pending"
  | .confirmed => "confirmed"
  | .canceled => "canceled"

/-- A row of `products` (`models.Product`); `unit` and `sku` are never read by
the endpoints under study and are omitted. -/
structure Product where
  id : Nat
  name : String
  price : Int
deriving DecidableEq, Repr

/-- A row of `inventory` (`models.Inventory`): one row per product
(`product_id` is unique), integer quantity on hand. -/
structure Inventory where
  product_id : Nat
  qty : Int
deriving DecidableEq, Repr

/-- A row of `orders` (`models.Order`). -/
structure Order where
  id : Nat
  cafe_id : Nat
  status : OrderStatus
  comment : String
deriving DecidableEq, Repr

/-- A row of `order_items` (`models.OrderItem`): `price` is the snapshot taken
at order creation. -/
structure OrderItem where
  order_id : Nat
  product_id : Nat
  qty : Int
  price : Int
deriving DecidableEq, Repr

/-- The committed database state, plus `invoice_files`: the set of order ids
whose PDF file exists under `INVOICE_DIR` (the on-disk side channel of the
invoice generator). `next_order_id` models the autoincrement primary key. -/
structure DBState where
  products : List Product
  inventory : List Inventory
  orders : List Order
  order_items : List OrderItem
  next_order_id : Nat
  invoice_files : List Nat
deriving DecidableEq, Repr

/-- The error outcomes the endpoints raise as `HTTPException`s, by detail. -/
inductive ApiError where
  /-- 400 "Items required". -/
  | emptyOrder
  /-- 400 "Products not found: {missing}" (sorted list of the missing ids). -/
  | unknownProducts (missing : List Nat)
  /-- 404 "Order not found" (absent or out of tenant scope). -/
  | notFound
  /-- 400 "Order not in pending state". -/
  | invalidState
  /-- 409 "Insufficient stock for product_id={pid}". -/
  | insufficientStock (product_id : Nat)
  /-- 500: an exception escaping the handler (uncaught PDF failure in
  `get_invoice`). -/
  | internal
deriving DecidableEq, Repr

/-- `select(Product).where(Product.id == pid)` (primary key lookup). -/
def findProduct (db : DBState) (pid : Nat) : Option Product :=
  db.products.find? (fun p => p.id == pid)

/-- `select(Inventory).where(Inventory.product_id == pid)` on an inventory
table, returning the row (`scalar_one_or_none`; `product_id` is unique). -/
def findInv (inv : List Inventory) (pid : Nat) : Option Inventory :=
  inv.find? (fun r => r.product_id == pid)

/-- Quantity on hand for `pid`, when an inventory row exists. -/
def lookupQty (inv : List Inventory) (pid : Nat) : Option Int :=
  (findInv inv pid).map Inventory.qty

/-- Assignment `inv.qty = v` on the row(s) for `pid`. -/
def setQty (inv : List Inventory) (pid : Nat) (v : Int) : List Inventory :=
  inv.map (fun r => if r.product_id == pid then ⟨r.product_id, v⟩ else r)

/-- `order.items`: the `OrderItem` rows with this `order_id`, in table order. -/
def itemsOf (db : DBState) (oid : Nat) : List OrderItem :=
  db.order_items.filter (fun it => it.order_id == oid)

/-- `select(Order).where(Order.id == oid, Order.cafe_id == cafe)` — the
tenant-scoped order lookup shared by confirm, get-order and get-invoice. -/
def selectOrderScoped (db : DBState) (oid cafe : Nat) : Option Order :=
  db.orders.find? (fun o => o.id == oid && o.cafe_id == cafe)

/-- Assignment `order.status = st` on the row with id `oid`. -/
def setOrderStatus (orders : List Order) (oid : Nat) (st : OrderStatus) :
    List Order :=
  orders.map (fun o => if o.id == oid then ⟨o.id, o.cafe_id, st, o.comment⟩ else o)

/-- One element of the `GET /products` response. -/
structure ProductOut where
  id : Nat
  name : String
  price : Int
  stock : Int
deriving DecidableEq, Repr

/-- `int(r[3] or 0)`: the joined inventory qty, or 0 when the left join
produced no inventory row (NULL). -/
def stockOf (db : DBState) (pid : Nat) : Int :=
  match lookupQty db.inventory pid with
  | some q => q
  | none => 0

/-- `GET /products` (`list_products`): product LEFT OUTER JOIN inventory on
`product_id`, ordered by `Product.id`, stock defaulting to 0. -/
def list_products (db : DBState) : List ProductOut :=
  (List.insertionSort (fun a b => a.id ≤ b.id) db.products).map
    (fun p => ⟨p.id, p.name, p.price, stockOf db p.id⟩)

/-- One element of an order response's `items`. -/
structure OrderItemOut where
  product_id : Nat
  name : String
  qty : Int
deriving DecidableEq, Repr

/-- The `OrderOut` response schema. -/
structure OrderOut where
  id : Nat
  cafe_id : Nat
  status : String
  items : List OrderItemOut
deriving DecidableEq, Repr

/-- `db.get(Product, pid).name`; total encoding, only evaluated on ids whose
product row exists. -/
def nameOf (db : DBState) (pid : Nat) : String :=
  match findProduct db pid with
  | some p => p.name
  | none => ""

/-- `products[it.product_id].price`; total encoding, only evaluated on ids
whose product row exists (guarded by the missing-products check). -/
def priceOf (db : DBState) (pid : Nat) : Int :=
  match findProduct db pid with
  | some p => p.price
  | none => 0

/-- `sorted(product_ids - set(products.keys()))`: the distinct requested
product ids with no product row, in ascending order.  A request item is a
pair `(product_id, qty)`. -/
def missingIds (db : DBState) (items : List (Nat × Int)) : List Nat :=
  List.insertionSort (fun a b => a ≤ b)
    (((items.map Prod.fst).filter (fun pid => (findProduct db pid).isNone)).dedup)

/-- `POST /orders` (`create_order`).  The Python guard
`len(products) != len(product_ids)` (distinct found ids vs distinct requested
ids) holds exactly when some requested id has no product row, i.e. when
`missingIds` is nonempty.  On success the new order (status pending) and all
its items — each with `price` snapshotted from the current product row — are
committed together. -/
def create_order (db : DBState) (cafe : Nat) (items : List (Nat × Int))
    (comment : String) : Except ApiError OrderOut × DBState :=
  if items.isEmpty then (.error .emptyOrder, db)
  else
    let missing := missingIds db items
    if missing.isEmpty then
      let oid := db.next_order_id
      let newItems := items.map
        (fun it => (⟨oid, it.1, it.2, priceOf db it.1⟩ : OrderItem))
      let db' : DBState :=
        ⟨db.products, db.inventory,
         db.orders ++ [⟨oid, cafe, .pending, comment⟩],
         db.order_items ++ newItems,
         oid + 1, db.invoice_files⟩
      (.ok ⟨oid, cafe, OrderStatus.pending.value,
            newItems.map (fun it => ⟨it.product_id, nameOf db it.product_id, it.qty⟩)⟩,
       db')
    else (.error (.unknownProducts missing), db)

/-- The `for it in order.items` loop of `confirm_order`: for each line item in
turn, load the inventory row, fail 409 if absent or short, otherwise apply
`inv.qty -= it.qty` in the session.  The session's identity map makes the
decrement of an earlier item visible to the check of a later item for the
same product (pending attribute changes are preserved on re-select), which
the sequential threading of `inv` models. -/
def decrementItems : List OrderItem → List Inventory →
    Except ApiError (List Inventory)
  | [], inv => .ok inv
  | it :: rest, inv =>
    match lookupQty inv it.product_id with
    | none => .error (.insufficientStock it.product_id)
    | some q =>
      if q < it.qty then .error (.insufficientStock it.product_id)
      else decrementItems rest (setQty inv it.product_id (q - it.qty))

/-- The `POST /orders/{id}/confirm` success body. -/
structure ConfirmOut where
  ok : Bool
  status : String
  /-- the order id in `invoice_url = "/orders/{id}/invoice"`. -/
  invoice_url_order : Nat
deriving DecidableEq, Repr

/-- `POST /orders/{id}/confirm` (`confirm_order`).  `pdfOk` is the outcome of
the `generate_invoice_pdf` side effect: when it is false the `try/except`
swallows the exception (only a line is printed) and the handler still returns
the success body — the decrements and the status change were already
committed.  Every `HTTPException` path returns before `db.commit()`, so the
committed state is returned unchanged there. -/
def confirm_order (pdfOk : Bool) (db : DBState) (cafe oid : Nat) :
    Except ApiError ConfirmOut × DBState :=
  match selectOrderScoped db oid cafe with
  | none => (.error .notFound, db)
  | some o =>
    if o.status ≠ OrderStatus.pending then (.error .invalidState, db)
    else
      match decrementItems (itemsOf db oid) db.inventory with
      | .error e => (.error e, db)
      | .ok inv' =>
        let committed : DBState :=
          ⟨db.products, inv', setOrderStatus db.orders oid .confirmed,
           db.order_items, db.next_order_id, db.invoice_files⟩
        (.ok ⟨true, OrderStatus.confirmed.value, oid⟩,
         if pdfOk then
           ⟨committed.products, committed.inventory, committed.orders,
            committed.order_items, committed.next_order_id,
            oid :: committed.invoice_files⟩
         else committed)

/-- The `OrderOut` built by `get_order` / `create_order` for an order row. -/
def orderOut (db : DBState) (o : Order) : OrderOut :=
  ⟨o.id, o.cafe_id, o.status.value,
   (itemsOf db o.id).map (fun it => ⟨it.product_id, nameOf db it.product_id, it.qty⟩)⟩

/-- `GET /orders/{id}` (`get_order`): tenant-scoped lookup, 404 on miss. -/
def get_order (db : DBState) (cafe oid : Nat) : Except ApiError OrderOut × DBState :=
  match selectOrderScoped db oid cafe with
  | none => (.error .notFound, db)
  | some o => (.ok (orderOut db o), db)

/-- `GET /orders/{id}/invoice` (`get_invoice`): tenant-scoped lookup, then
serve the existing PDF, or regenerate it on demand when the file is missing.
The regeneration is not wrapped in `try/except`: a failure (`pdfOk = false`)
escapes as a server error. -/
def get_invoice (pdfOk : Bool) (db : DBState) (cafe oid : Nat) :
    Except ApiError Nat × DBState :=
  match selectOrderScoped db oid cafe with
  | none => (.error .notFound, db)
  | some _ =>
    if oid ∈ db.invoice_files then (.ok oid, db)
    else if pdfOk then
      (.ok oid,
       ⟨db.products, db.inventory, db.orders, db.order_items,
        db.next_order_id, oid :: db.invoice_files⟩)
    else (.error .internal, db)

/-- `Σ float(p) * q` over the order's items (`list_my_orders` total). -/
def orderTotal (db : DBState) (oid : Nat) : Int :=
  ((itemsOf db oid).map (fun it => it.price * it.qty)).sum

/-- `GET /orders/my` (`list_my_orders`): the caller's orders newest-id-first,
paginated; read-only. -/
def list_my_orders (db : DBState) (cafe : Nat) (page page_size : Nat) :
    List (Nat × String × Int) :=
  ((List.insertionSort (fun a b => b.id ≤ a.id)
      (db.orders.filter (fun o => o.cafe_id == cafe))).drop
    ((page - 1) * page_size)).take page_size
  |>.map (fun o => (o.id, o.status.value, orderTotal db o.id))

/-- An update of a catalog price.  No endpoint of the repository writes
`Product.price`; this models the external change the spec's "even if
Product.price later changes" quantifies over (e.g. a direct catalog edit).
It touches only the products table. -/
def set_product_price (db : DBState) (pid : Nat) (newPrice : Int) : DBState :=
  ⟨db.products.map (fun p => if p.id == pid then ⟨p.id, p.name, newPrice⟩ else p),
   db.inventory, db.orders, db.order_items, db.next_order_id, db.invoice_files⟩

/-- Total quantity an item list requests of product `pid`. -/
def totalQty (items : List OrderItem) (pid : Nat) : Int :=
  ((items.filter (fun it => it.product_id == pid)).map OrderItem.qty).sum

/-!
Concurrency model for overlapping confirmations.  Each HTTP request runs in
its own SQLAlchemy session against MySQL/InnoDB at its default isolation
level; `confirm_order` reads the inventory rows with a plain (non-locking)
`SELECT` — no `with_for_update()`, no serializable isolation — computes
`inv.qty -= it.qty` in Python, and `commit()` flushes the dirty rows as
absolute `UPDATE ... SET qty = <computed value>` statements.  Two overlapping
confirmations can therefore both read the same committed snapshot, both pass
the stock check, and then commit one after the other, the later commit
overwriting the earlier one's decrement (a classic lost update).  The model
below runs the read/check/compute phase of each transaction against an
explicit snapshot and applies its computed values at commit. -/

/-- The read/check/compute phase of `confirm_order` executed against the
committed snapshot `snap`: `some inv'` when the order is visible, pending and
fully coverable (with `inv'` the inventory this transaction intends to
write), `none` when the request fails before reaching `commit()`. -/
def confirmReadPhase (snap : DBState) (cafe oid : Nat) : Option (List Inventory) :=
  match selectOrderScoped snap oid cafe with
  | none => none
  | some o =>
    if o.status ≠ OrderStatus.pending then none
    else
      match decrementItems (itemsOf snap oid) snap.inventory with
      | .error _ => none
      | .ok inv' => some inv'

/-- The product ids whose inventory rows a confirmation of `oid` dirties. -/
def touchedProducts (snap : DBState) (oid : Nat) : List Nat :=
  (itemsOf snap oid).map OrderItem.product_id

/-- Commit of one transaction's inventory writes: each row the transaction
dirtied is set to the absolute quantity the transaction computed from its own
snapshot, regardless of what the row holds now (lost update). -/
def commitInventoryWrites (current computed : List Inventory) (pids : List Nat) :
    List Inventory :=
  current.map (fun r =>
    if pids.contains r.product_id then
      match findInv computed r.product_id with
      | some rc => ⟨r.product_id, rc.qty⟩
      | none => r
    else r)

/-- Two confirmation requests interleaved read–read–commit–commit: both read
phases see the same committed snapshot `db` (non-locking consistent reads
taken before either commit), then transaction 1 commits, then transaction 2.
Returns (did T1 succeed, did T2 succeed) and the final committed state.  The
invoice side effect is irrelevant to the race and omitted. -/
def interleavedConfirmPair (db : DBState) (cafe oid1 oid2 : Nat) :
    (Bool × Bool) × DBState :=
  let r1 := confirmReadPhase db cafe oid1
  let r2 := confirmReadPhase db cafe oid2
  let db1 := match r1 with
    | none => db
    | some inv1 =>
      ⟨db.products, commitInventoryWrites db.inventory inv1 (touchedProducts db oid1),
       setOrderStatus db.orders oid1 .confirmed, db.order_items,
       db.next_order_id, db.invoice_files⟩
  let db2 := match r2 with
    | none => db1
    | some inv2 =>
      ⟨db1.products, commitInventoryWrites db1.inventory inv2 (touchedProducts db oid2),
       setOrderStatus db1.orders oid2 .confirmed, db1.order_items,
       db1.next_order_id, db1.invoice_files⟩
  ((r1.isSome, r2.isSome), db2)

/-- A small concrete committed state (in the shape the seed script produces):
two products with inventory rows, one catalog product without one, a pending
order of cafe 1 with two items, a pending order of cafe 2 whose item's
product has no inventory row, and an already-confirmed order of cafe 1. -/
def dbW : DBState :=
  ⟨[⟨1, "Croissant", 320⟩, ⟨2, "Baguette", 280⟩, ⟨3, "Cake", 500⟩],
   [⟨1, 5⟩, ⟨2, 3⟩],
   [⟨10, 1, .pending, ""⟩, ⟨11, 2, .pending, ""⟩, ⟨12, 1, .confirmed, ""⟩],
   [⟨10, 1, 2, 320⟩, ⟨10, 2, 1, 280⟩, ⟨11, 3, 1, 500⟩, ⟨12, 1, 1, 320⟩],
   13, []⟩

/-! ### Helper lemmas -/

theorem findInv_mem {inv : List Inventory} {pid : Nat} {r : Inventory}
    (h : findInv inv pid = some r) : r ∈ inv ∧ r.product_id = pid := by
  refine ⟨List.mem_of_find?_eq_some h, ?_⟩
  have := List.find?_some h
  simpa using this

theorem findInv_setQty (inv : List Inventory) (pid : Nat) (v : Int) (p : Nat) :
    findInv (setQty inv pid v) p =
      (findInv inv p).map
        (fun r => if r.product_id == pid then ⟨r.product_id, v⟩ else r) := by
  induction inv with
  | nil => rfl
  | cons r rest ih =>
    have hpres :
        (if r.product_id == pid then (⟨r.product_id, v⟩ : Inventory) else r).product_id
          = r.product_id := by
      split <;> rfl
    simp only [setQty, List.map_cons, findInv] at ih ⊢
    by_cases h : r.product_id = p
    · have h1 : ((if r.product_id == pid then (⟨r.product_id, v⟩ : Inventory) else r).product_id
          == p) = true := by rw [hpres]; exact beq_iff_eq.mpr h
      have h2 : (r.product_id == p) = true := beq_iff_eq.mpr h
      simp only [List.find?_cons, h1, h2]
      rfl
    · have h1 : ((if r.product_id == pid then (⟨r.product_id, v⟩ : Inventory) else r).product_id
          == p) = false := by rw [hpres]; simpa using h
      have h2 : (r.product_id == p) = false := by simpa using h
      simp only [List.find?_cons, h1, h2]
      exact ih

theorem lookupQty_setQty (inv : List Inventory) (pid : Nat) (v : Int) (p : Nat) :
    lookupQty (setQty inv pid v) p =
      if p = pid then (lookupQty inv pid).map (fun _ => v)
      else lookupQty inv p := by
  rw [lookupQty, findInv_setQty]
  cases hfind : findInv inv p with
  | none =>
    by_cases h : p = pid
    · subst h; simp [lookupQty, hfind]
    · simp [lookupQty, hfind, h]
  | some r =>
    have hrp : r.product_id = p := (findInv_mem hfind).2
    by_cases h : p = pid
    · subst h; simp [lookupQty, hfind, hrp]
    · simp [lookupQty, hfind, h, hrp]

theorem lookupQty_mem {inv : List Inventory} {pid : Nat} {q : Int}
    (h : lookupQty inv pid = some q) : ∃ r ∈ inv, r.product_id = pid ∧ r.qty = q := by
  rw [lookupQty] at h
  cases hfind : findInv inv pid with
  | none => rw [hfind] at h; exact absurd h (by simp)
  | some r =>
    rw [hfind] at h
    obtain ⟨hm, hp⟩ := findInv_mem hfind
    have hq : r.qty = q := by simpa using h
    exact ⟨r, hm, hp, hq⟩

theorem mem_setQty {inv : List Inventory} {pid : Nat} {v : Int} {r : Inventory}
    (h : r ∈ setQty inv pid v) : r ∈ inv ∨ r.qty = v := by
  simp only [setQty, List.mem_map] at h
  obtain ⟨r0, hr0m, hr0⟩ := h
  by_cases hc : (r0.product_id == pid) = true
  · right
    rw [← hr0]
    simp [hc]
  · left
    have : r = r0 := by rw [← hr0]; simp [hc]
    rw [this]
    exact hr0m

theorem totalQty_cons (it : OrderItem) (rest : List OrderItem) (pid : Nat) :
    totalQty (it :: rest) pid =
      (if it.product_id = pid then it.qty else 0) + totalQty rest pid := by
  by_cases h : it.product_id = pid <;>
    simp [totalQty, List.filter_cons, h, add_comm]

theorem totalQty_nonneg {items : List OrderItem} {pid : Nat}
    (h : ∀ it ∈ items, 0 ≤ it.qty) : 0 ≤ totalQty items pid := by
  induction items with
  | nil => simp [totalQty]
  | cons it rest ih =>
    rw [totalQty_cons]
    have h1 : 0 ≤ it.qty := h it (by simp)
    have h2 := ih (fun x hx => h x (by simp [hx]))
    split <;> omega

/-- When the whole check-and-decrement loop succeeds, each product's quantity
drops by exactly the total the order requests of it (0 for untouched
products), and no inventory row appears or disappears. -/
theorem decrementItems_ok_lookup {items : List OrderItem} {inv inv' : List Inventory}
    (h : decrementItems items inv = .ok inv') (p : Nat) :
    lookupQty inv' p = (lookupQty inv p).map (fun q => q - totalQty items p) := by
  induction items generalizing inv with
  | nil =>
    simp only [decrementItems] at h
    cases h
    cases hl : lookupQty inv' p <;> simp [totalQty, hl]
  | cons it rest ih =>
    cases hq : lookupQty inv it.product_id with
    | none =>
      simp only [decrementItems, hq] at h
      exact Except.noConfusion h
    | some q =>
      simp only [decrementItems, hq] at h
      by_cases hlt : q < it.qty
      · rw [if_pos hlt] at h; exact Except.noConfusion h
      · rw [if_neg hlt] at h
        rw [ih h, lookupQty_setQty, totalQty_cons]
        by_cases hp : p = it.product_id
        · subst hp
          rw [hq]
          simp only [if_pos rfl, eq_self_iff_true, ite_true, Option.map_some',
            Option.some.injEq]
          omega
        · rw [if_neg hp, if_neg (fun hh => hp hh.symm)]
          cases hl : lookupQty inv p <;> simp [hl]

/-- When every line item's product is covered for the order's total demand of
it, the loop cannot fail. -/
theorem decrementItems_ok_of_suff {items : List OrderItem} {inv : List Inventory}
    (hpos : ∀ it ∈ items, 0 ≤ it.qty)
    (hsuff : ∀ it ∈ items, ∃ q, lookupQty inv it.product_id = some q ∧
      totalQty items it.product_id ≤ q) :
    ∃ inv', decrementItems items inv = .ok inv' := by
  induction items generalizing inv with
  | nil => exact ⟨inv, rfl⟩
  | cons it rest ih =>
    obtain ⟨q, hq, htot⟩ := hsuff it (by simp)
    have hposrest : ∀ x ∈ rest, 0 ≤ x.qty := fun x hx => hpos x (by simp [hx])
    have htotrest : 0 ≤ totalQty rest it.product_id := totalQty_nonneg hposrest
    rw [totalQty_cons, if_pos rfl] at htot
    have hnlt : ¬ q < it.qty := by omega
    have hsuff' : ∀ x ∈ rest, ∃ q',
        lookupQty (setQty inv it.product_id (q - it.qty)) x.product_id = some q' ∧
        totalQty rest x.product_id ≤ q' := by
      intro x hx
      by_cases hpx : x.product_id = it.product_id
      · refine ⟨q - it.qty, ?_, ?_⟩
        · rw [lookupQty_setQty, if_pos hpx, hq]; rfl
        · rw [hpx]; omega
      · obtain ⟨q', hq', htot'⟩ := hsuff x (by simp [hx])
        refine ⟨q', by rw [lookupQty_setQty, if_neg hpx]; exact hq', ?_⟩
        rw [totalQty_cons, if_neg (fun hh => hpx hh.symm)] at htot'
        omega
    obtain ⟨inv', hinv'⟩ := ih hposrest hsuff'
    refine ⟨inv', ?_⟩
    simp only [decrementItems, hq, if_neg hnlt]
    exact hinv'

/-- When the loop succeeds, each line item's product had an inventory row in
the initial state covering at least that item's own quantity. -/
theorem decrementItems_ok_item {items : List OrderItem} {inv inv' : List Inventory}
    (hpos : ∀ it ∈ items, 0 ≤ it.qty)
    (h : decrementItems items inv = .ok inv') :
    ∀ it ∈ items, ∃ q, lookupQty inv it.product_id = some q ∧ it.qty ≤ q := by
  induction items generalizing inv with
  | nil => intro x hx; cases hx
  | cons it rest ih =>
    cases hq : lookupQty inv it.product_id with
    | none =>
      simp only [decrementItems, hq] at h
      exact Except.noConfusion h
    | some q =>
      simp only [decrementItems, hq] at h
      by_cases hlt : q < it.qty
      · rw [if_pos hlt] at h; exact Except.noConfusion h
      · rw [if_neg hlt] at h
        intro x hx
        rcases List.mem_cons.1 hx with hx1 | hx2
        · subst hx1; exact ⟨q, hq, by omega⟩
        · have hposrest : ∀ y ∈ rest, 0 ≤ y.qty := fun y hy => hpos y (by simp [hy])
          obtain ⟨q', hq', hle'⟩ := ih hposrest h x hx2
          rw [lookupQty_setQty] at hq'
          by_cases hpx : x.product_id = it.product_id
          · rw [if_pos hpx, hq] at hq'
            have hq'eq : q - it.qty = q' := by simpa using hq'
            have hitpos : 0 ≤ it.qty := hpos it (by simp)
            exact ⟨q, by rw [hpx]; exact hq, by omega⟩
          · rw [if_neg hpx] at hq'
            exact ⟨q', hq', hle'⟩

/-- When the loop fails, the error is `insufficientStock pid` for the product
of one of the order's own line items, and that product's initial inventory is
genuinely short: its row is missing, or its quantity is below the order's
total demand for it. -/
theorem decrementItems_error {items : List OrderItem} {inv : List Inventory}
    {e : ApiError}
    (hpos : ∀ it ∈ items, 0 ≤ it.qty)
    (h : decrementItems items inv = .error e) :
    ∃ pid, e = .insufficientStock pid ∧ (∃ it ∈ items, it.product_id = pid) ∧
      (lookupQty inv pid = none ∨
       ∃ q, lookupQty inv pid = some q ∧ q < totalQty items pid) := by
  induction items generalizing inv with
  | nil => simp only [decrementItems] at h; exact Except.noConfusion h
  | cons it rest ih =>
    cases hq : lookupQty inv it.product_id with
    | none =>
      simp only [decrementItems, hq] at h
      have he : e = .insufficientStock it.product_id := by
        injection h with h1; exact h1.symm
      exact ⟨it.product_id, he, ⟨it, by simp, rfl⟩, Or.inl hq⟩
    | some q =>
      simp only [decrementItems, hq] at h
      by_cases hlt : q < it.qty
      · rw [if_pos hlt] at h
        have he : e = .insufficientStock it.product_id := by
          injection h with h1; exact h1.symm
        refine ⟨it.product_id, he, ⟨it, by simp, rfl⟩, Or.inr ⟨q, hq, ?_⟩⟩
        rw [totalQty_cons, if_pos rfl]
        have htr : 0 ≤ totalQty rest it.product_id :=
          totalQty_nonneg (fun y hy => hpos y (by simp [hy]))
        omega
      · rw [if_neg hlt] at h
        obtain ⟨pid, he, ⟨x, hx, hxpid⟩, hcase⟩ :=
          ih (fun y hy => hpos y (by simp [hy])) h
        refine ⟨pid, he, ⟨x, by simp [hx], hxpid⟩, ?_⟩
        rcases hcase with hnone | ⟨q', hq', hlt'⟩
        · rw [lookupQty_setQty] at hnone
          by_cases hpp : pid = it.product_id
          · rw [if_pos hpp, hq] at hnone
            exact absurd hnone (by simp)
          · rw [if_neg hpp] at hnone
            exact Or.inl hnone
        · rw [lookupQty_setQty] at hq'
          by_cases hpp : pid = it.product_id
          · rw [if_pos hpp, hq] at hq'
            have hq'eq : q - it.qty = q' := by simpa using hq'
            refine Or.inr ⟨q, by rw [hpp]; exact hq, ?_⟩
            rw [totalQty_cons, if_pos hpp.symm]
            have hrest : totalQty rest pid = totalQty rest it.product_id := by rw [hpp]
            omega
          · rw [if_neg hpp] at hq'
            refine Or.inr ⟨q', hq', ?_⟩
            rw [totalQty_cons, if_neg (fun hh => hpp hh.symm)]
            omega

/-- A successful check-and-decrement never drives any quantity negative: each
decrement is guarded by `qty < it.qty` on the running value. -/
theorem decrementItems_nonneg {items : List OrderItem} {inv inv' : List Inventory}
    (hnn : ∀ r ∈ inv, 0 ≤ r.qty)
    (h : decrementItems items inv = .ok inv') :
    ∀ r ∈ inv', 0 ≤ r.qty := by
  induction items generalizing inv with
  | nil => simp only [decrementItems] at h; cases h; exact hnn
  | cons it rest ih =>
    cases hq : lookupQty inv it.product_id with
    | none =>
      simp only [decrementItems, hq] at h
      exact Except.noConfusion h
    | some q =>
      simp only [decrementItems, hq] at h
      by_cases hlt : q < it.qty
      · rw [if_pos hlt] at h; exact Except.noConfusion h
      · rw [if_neg hlt] at h
        have hq0 : 0 ≤ q := by
          obtain ⟨r, hrm, _, hrq⟩ := lookupQty_mem hq
          rw [← hrq]; exact hnn r hrm
        have hnn' : ∀ r ∈ setQty inv it.product_id (q - it.qty), 0 ≤ r.qty := by
          intro r hr
          rcases mem_setQty hr with hmem | hqv
          · exact hnn r hmem
          · rw [hqv]; omega
        exact ih hnn' h

theorem selectOrderScoped_some {db : DBState} {oid cafe : Nat} {o : Order}
    (h : selectOrderScoped db oid cafe = some o) :
    o ∈ db.orders ∧ o.id = oid ∧ o.cafe_id = cafe := by
  refine ⟨List.mem_of_find?_eq_some h, ?_, ?_⟩
  · have := List.find?_some h
    simp only [Bool.and_eq_true, beq_iff_eq] at this
    exact this.1
  · have := List.find?_some h
    simp only [Bool.and_eq_true, beq_iff_eq] at this
    exact this.2

/-- With unique order ids, a scoped lookup for an order that belongs to a
different cafe finds nothing. -/
theorem selectOrderScoped_mismatch {db : DBState} {oid cafe : Nat} {o : Order}
    (hnodup : (db.orders.map Order.id).Nodup)
    (hmem : o ∈ db.orders) (hid : o.id = oid) (hcafe : o.cafe_id ≠ cafe) :
    selectOrderScoped db oid cafe = none := by
  rw [selectOrderScoped, List.find?_eq_none]
  intro x hx
  simp only [Bool.and_eq_true, beq_iff_eq, not_and]
  intro hxid
  have hxo : x = o := List.inj_on_of_nodup_map hnodup hx hmem (by rw [hxid, hid])
  rw [hxo]
  exact hcafe

/-- Setting one order's status commutes with the scoped lookup: the same row
is found, with its status updated when it is the targeted row. -/
theorem find_scoped_setStatus (orders : List Order) (oid : Nat) (st : OrderStatus)
    (oid' cafe : Nat) :
    (setOrderStatus orders oid st).find? (fun o => o.id == oid' && o.cafe_id == cafe) =
      (orders.find? (fun o => o.id == oid' && o.cafe_id == cafe)).map
        (fun o => if o.id == oid then ⟨o.id, o.cafe_id, st, o.comment⟩ else o) := by
  induction orders with
  | nil => rfl
  | cons o rest ih =>
    have hpres1 :
        (if o.id == oid then (⟨o.id, o.cafe_id, st, o.comment⟩ : Order) else o).id = o.id := by
      split <;> rfl
    have hpres2 :
        (if o.id == oid then (⟨o.id, o.cafe_id, st, o.comment⟩ : Order) else o).cafe_id
          = o.cafe_id := by
      split <;> rfl
    simp only [setOrderStatus, List.map_cons] at ih ⊢
    by_cases h : (o.id == oid' && o.cafe_id == cafe) = true
    · have h1 : ((if o.id == oid then (⟨o.id, o.cafe_id, st, o.comment⟩ : Order) else o).id
          == oid' &&
          (if o.id == oid then (⟨o.id, o.cafe_id, st, o.comment⟩ : Order) else o).cafe_id
          == cafe) = true := by
        rw [hpres1, hpres2]; exact h
      simp only [List.find?_cons, h, h1]
      rfl
    · rw [Bool.not_eq_true] at h
      have h1 : ((if o.id == oid then (⟨o.id, o.cafe_id, st, o.comment⟩ : Order) else o).id
          == oid' &&
          (if o.id == oid then (⟨o.id, o.cafe_id, st, o.comment⟩ : Order) else o).cafe_id
          == cafe) = false := by
        rw [hpres1, hpres2]; exact h
      simp only [List.find?_cons, h, h1]
      exact ih

/-- Inversion of a successful `confirm_order`: the order was visible and
pending, the whole decrement loop succeeded, and the committed state is the
input state with exactly the new inventory, the status flip, and (when the
PDF rendered) the invoice file. -/
theorem confirm_order_ok_state {pdfOk : Bool} {db : DBState} {cafe oid : Nat}
    {r : ConfirmOut} {db' : DBState}
    (h : confirm_order pdfOk db cafe oid = (.ok r, db')) :
    ∃ o inv', selectOrderScoped db oid cafe = some o ∧
      o.status = OrderStatus.pending ∧
      decrementItems (itemsOf db oid) db.inventory = .ok inv' ∧
      r = ⟨true, "confirmed", oid⟩ ∧
      db' = ⟨db.products, inv', setOrderStatus db.orders oid .confirmed,
             db.order_items, db.next_order_id,
             if pdfOk then oid :: db.invoice_files else db.invoice_files⟩ := by
  cases hscope : selectOrderScoped db oid cafe with
  | none =>
    simp only [confirm_order, hscope] at h
    rw [Prod.mk.injEq] at h
    exact absurd h.1 (by simp)
  | some o =>
    simp only [confirm_order, hscope] at h
    by_cases hst : o.status = OrderStatus.pending
    · rw [if_neg (not_not_intro hst)] at h
      cases hdec : decrementItems (itemsOf db oid) db.inventory with
      | error e =>
        simp only [hdec] at h
        rw [Prod.mk.injEq] at h
        exact absurd h.1 (by simp)
      | ok inv' =>
        simp only [hdec] at h
        rw [Prod.mk.injEq] at h
        obtain ⟨h1, h2⟩ := h
        have hr : r = ⟨true, "confirmed", oid⟩ := by
          injection h1 with h1'
          exact h1'.symm
        refine ⟨o, inv', rfl, hst, rfl, hr, ?_⟩
        rw [← h2]
        cases pdfOk <;> rfl
    · rw [if_pos hst] at h
      rw [Prod.mk.injEq] at h
      exact absurd h.1 (by simp)

/-- On every error path, `confirm_order` is reached before `db.commit()` and
the committed state is untouched — no partial decrement survives. -/
theorem confirm_order_error_state {pdfOk : Bool} {db : DBState} {cafe oid : Nat}
    {e : ApiError} {db' : DBState}
    (h : confirm_order pdfOk db cafe oid = (.error e, db')) : db' = db := by
  cases hscope : selectOrderScoped db oid cafe with
  | none =>
    simp only [confirm_order, hscope] at h
    exact (congrArg Prod.snd h).symm
  | some o =>
    simp only [confirm_order, hscope] at h
    by_cases hst : o.status = OrderStatus.pending
    · rw [if_neg (not_not_intro hst)] at h
      cases hdec : decrementItems (itemsOf db oid) db.inventory with
      | error e2 =>
        simp only [hdec] at h
        exact (congrArg Prod.snd h).symm
      | ok inv' =>
        simp only [hdec] at h
        exact absurd (congrArg Prod.fst h) (by simp)
    · rw [if_pos hst] at h
      exact (congrArg Prod.snd h).symm

/-- Inversion of a successful `create_order`: a nonempty request with no
missing product, committed as the pending order row plus one item row per
request item, each snapshotting the current product price. -/
theorem create_order_ok_state {db : DBState} {cafe : Nat}
    {items : List (Nat × Int)} {comment : String} {out : OrderOut} {db' : DBState}
    (h : create_order db cafe items comment = (.ok out, db')) :
    items ≠ [] ∧ missingIds db items = [] ∧
    db' = ⟨db.products, db.inventory,
           db.orders ++ [⟨db.next_order_id, cafe, .pending, comment⟩],
           db.order_items ++
             items.map (fun it => ⟨db.next_order_id, it.1, it.2, priceOf db it.1⟩),
           db.next_order_id + 1, db.invoice_files⟩ := by
  by_cases hempty : items.isEmpty
  · simp only [create_order, hempty] at h
    simp at h
  · simp only [create_order, hempty] at h
    rw [if_neg (by simp [hempty])] at h
    by_cases hmiss : (missingIds db items).isEmpty
    · rw [if_pos hmiss] at h
      refine ⟨by simpa using hempty, by simpa using hmiss, ?_⟩
      exact (congrArg Prod.snd h).symm
    · rw [if_neg hmiss] at h
      simp at h

/-- On every error path, `create_order` raises before any `db.add`/`commit`
takes effect: the committed state is unchanged. -/
theorem create_order_error_state {db : DBState} {cafe : Nat}
    {items : List (Nat × Int)} {comment : String} {e : ApiError} {db' : DBState}
    (h : create_order db cafe items comment = (.error e, db')) : db' = db := by
  by_cases h1 : items.isEmpty
  · simp only [create_order, h1, if_pos] at h
    rw [Prod.mk.injEq] at h
    exact h.2.symm
  · simp only [create_order] at h
    rw [if_neg (by simpa using h1)] at h
    by_cases h2 : (missingIds db items).isEmpty
    · rw [if_pos h2] at h
      rw [Prod.mk.injEq] at h
      exact absurd h.1 (by simp)
    · rw [if_neg h2] at h
      rw [Prod.mk.injEq] at h
      exact h.2.symm

/-- Characterization of the sorted missing-ids list: exactly the requested
product ids with no product row. -/
theorem mem_missingIds (db : DBState) (items : List (Nat × Int)) (pid : Nat) :
    pid ∈ missingIds db items ↔
      (∃ it ∈ items, it.1 = pid) ∧ findProduct db pid = none := by
  rw [missingIds, (List.perm_insertionSort _ _).mem_iff, List.mem_dedup,
    List.mem_filter]
  simp only [List.mem_map, Option.isNone_iff_eq_none]

/-- `get_order` is read-only. -/
theorem get_order_snd (db : DBState) (cafe oid : Nat) :
    (get_order db cafe oid).2 = db := by
  cases hscope : selectOrderScoped db oid cafe <;> simp [get_order, hscope]

/-- `get_invoice` touches at most the invoice file store, never a table. -/
theorem get_invoice_frame (pdfOk : Bool) (db : DBState) (cafe oid : Nat) :
    (get_invoice pdfOk db cafe oid).2.products = db.products ∧
    (get_invoice pdfOk db cafe oid).2.inventory = db.inventory ∧
    (get_invoice pdfOk db cafe oid).2.orders = db.orders ∧
    (get_invoice pdfOk db cafe oid).2.order_items = db.order_items := by
  cases hscope : selectOrderScoped db oid cafe with
  | none => simp [get_invoice, hscope]
  | some o =>
    simp only [get_invoice, hscope]
    split_ifs <;> exact ⟨rfl, rfl, rfl, rfl⟩

/-- `confirm_order` never writes the order-items table (price snapshots are
immutable after creation). -/
theorem confirm_order_order_items (pdfOk : Bool) (db : DBState) (cafe oid : Nat) :
    (confirm_order pdfOk db cafe oid).2.order_items = db.order_items := by
  cases hres : confirm_order pdfOk db cafe oid with
  | mk res st =>
    cases res with
    | error e =>
      have hst := confirm_order_error_state hres
      rw [hst]
    | ok r =>
      obtain ⟨o, inv', _, _, _, _, hdb'⟩ := confirm_order_ok_state hres
      rw [hdb']

/-- `create_order` only ever appends to the order-items table. -/
theorem create_order_appends (db : DBState) (cafe : Nat)
    (items : List (Nat × Int)) (comment : String) :
    ∃ rest, (create_order db cafe items comment).2.order_items =
      db.order_items ++ rest := by
  cases hres : create_order db cafe items comment with
  | mk res st =>
    cases res with
    | error e =>
      have hst := create_order_error_state hres
      exact ⟨[], by rw [hst]; simp⟩
    | ok out =>
      obtain ⟨_, _, hdb'⟩ := create_order_ok_state hres
      exact ⟨_, by rw [hdb']⟩

/-! ### Claim theorems -/

/-- C1. Confirming a pending order of the caller's cafe whose line items
include one with no inventory row, or with fewer units on hand than
requested, fails with `InsufficientStock` naming the product of a line item
whose inventory cannot cover the order's demand for it, and the committed
state — in particular every `Inventory.qty` — is exactly the input state: no
partial decrement is persisted (the session dies before `commit()`). -/
theorem confirm_insufficient_stock_atomic (pdfOk : Bool) (db : DBState)
    (cafe oid : Nat) (o : Order)
    (hscope : selectOrderScoped db oid cafe = some o)
    (hpend : o.status = OrderStatus.pending)
    (hpos : ∀ it ∈ itemsOf db oid, 0 ≤ it.qty)
    (hshort : ∃ it ∈ itemsOf db oid,
      lookupQty db.inventory it.product_id = none ∨
      ∃ q, lookupQty db.inventory it.product_id = some q ∧ q < it.qty) :
    ∃ pid, confirm_order pdfOk db cafe oid = (.error (.insufficientStock pid), db) ∧
      (∃ it ∈ itemsOf db oid, it.product_id = pid) ∧
      (lookupQty db.inventory pid = none ∨
       ∃ q, lookupQty db.inventory pid = some q ∧
         q < totalQty (itemsOf db oid) pid) := by
  cases hdec : decrementItems (itemsOf db oid) db.inventory with
  | ok inv' =>
    exfalso
    obtain ⟨it0, hit0, hcase⟩ := hshort
    obtain ⟨q, hq, hle⟩ := decrementItems_ok_item hpos hdec it0 hit0
    rcases hcase with hnone | ⟨q2, hq2, hlt2⟩
    · rw [hq] at hnone
      exact absurd hnone (by simp)
    · rw [hq] at hq2
      have hqq : q = q2 := Option.some.inj hq2
      omega
  | error e =>
    obtain ⟨pid, he, hmem, hbad⟩ := decrementItems_error hpos hdec
    subst he
    refine ⟨pid, ?_, hmem, hbad⟩
    simp only [confirm_order, hscope]
    rw [if_neg (not_not_intro hpend), hdec]

/-- C2. Confirming a pending order of the caller's cafe whose every product's
inventory covers the order's total demand succeeds: each touched
`Inventory.qty` drops by exactly the order's total for that product (each
item's qty, summed per product), untouched quantities are unchanged, the
order's status becomes confirmed, and the order-items table is untouched —
all in the one committed state the call returns. -/
theorem confirm_success_decrements (pdfOk : Bool) (db : DBState)
    (cafe oid : Nat) (o : Order)
    (hscope : selectOrderScoped db oid cafe = some o)
    (hpend : o.status = OrderStatus.pending)
    (hpos : ∀ it ∈ itemsOf db oid, 0 ≤ it.qty)
    (hsuff : ∀ it ∈ itemsOf db oid, ∃ q,
      lookupQty db.inventory it.product_id = some q ∧
      totalQty (itemsOf db oid) it.product_id ≤ q) :
    ∃ db', confirm_order pdfOk db cafe oid = (.ok ⟨true, "confirmed", oid⟩, db') ∧
      (∀ p, lookupQty db'.inventory p =
        (lookupQty db.inventory p).map (fun q => q - totalQty (itemsOf db oid) p)) ∧
      db'.orders = setOrderStatus db.orders oid .confirmed ∧
      selectOrderScoped db' oid cafe =
        some ⟨oid, cafe, .confirmed, o.comment⟩ ∧
      db'.order_items = db.order_items := by
  obtain ⟨inv', hdec⟩ := decrementItems_ok_of_suff hpos hsuff
  obtain ⟨hmem, hid, hcafe⟩ := selectOrderScoped_some hscope
  have hfind : db.orders.find? (fun x => x.id == oid && x.cafe_id == cafe) = some o :=
    hscope
  refine ⟨⟨db.products, inv', setOrderStatus db.orders oid .confirmed,
    db.order_items, db.next_order_id,
    if pdfOk then oid :: db.invoice_files else db.invoice_files⟩,
    ?_, ?_, rfl, ?_, rfl⟩
  · simp only [confirm_order, hscope]
    rw [if_neg (not_not_intro hpend), hdec]
    cases pdfOk <;> rfl
  · intro p
    exact decrementItems_ok_lookup hdec p
  · show (setOrderStatus db.orders oid .confirmed).find? _ = _
    rw [find_scoped_setStatus, hfind]
    simp [hid, hcafe]

/-- C3. Confirm on a non-pending order always fails `InvalidState` with the
committed state (inventory included) untouched; in particular after a
successful confirm, a second confirm of the same order fails `InvalidState`
and leaves the post-first-confirm state exactly as it was. -/
theorem confirm_non_pending_invalid (pdfOk pdfOk2 : Bool) (db : DBState)
    (cafe oid : Nat) :
    (∀ o, selectOrderScoped db oid cafe = some o →
      o.status ≠ OrderStatus.pending →
      confirm_order pdfOk db cafe oid = (.error .invalidState, db)) ∧
    (∀ r db', confirm_order pdfOk db cafe oid = (.ok r, db') →
      confirm_order pdfOk2 db' cafe oid = (.error .invalidState, db')) := by
  constructor
  · intro o hscope hnp
    simp only [confirm_order, hscope]
    rw [if_pos hnp]
  · intro r db' hok
    obtain ⟨o, inv', hscope, hpend, hdec, hr, hdb'⟩ := confirm_order_ok_state hok
    obtain ⟨hmem, hid, hcafe⟩ := selectOrderScoped_some hscope
    have hfind : db.orders.find? (fun x => x.id == oid && x.cafe_id == cafe) = some o :=
      hscope
    have hscope' : selectOrderScoped db' oid cafe =
        some ⟨o.id, o.cafe_id, .confirmed, o.comment⟩ := by
      rw [hdb']
      show (setOrderStatus db.orders oid .confirmed).find? _ = _
      rw [find_scoped_setStatus, hfind]
      simp [hid]
    simp only [confirm_order, hscope']
    rw [if_pos (show OrderStatus.confirmed ≠ OrderStatus.pending by decide)]

/-- C4. All three order-scoped endpoints — get-order, confirm, and invoice
fetch — filter on both the order id and the caller's `cafe_id`: an order of
another cafe yields `NotFound` with the state unchanged and none of the
order's data, and `get_order` returns an order only when it belongs to the
caller's cafe. -/
theorem tenant_scoping_not_found (pdfOk : Bool) (db : DBState) (cafe oid : Nat) :
    (∀ o, (db.orders.map Order.id).Nodup → o ∈ db.orders → o.id = oid →
      o.cafe_id ≠ cafe →
      get_order db cafe oid = (.error .notFound, db) ∧
      confirm_order pdfOk db cafe oid = (.error .notFound, db) ∧
      get_invoice pdfOk db cafe oid = (.error .notFound, db)) ∧
    (∀ out db2, get_order db cafe oid = (.ok out, db2) →
      ∃ o, o ∈ db.orders ∧ o.id = oid ∧ o.cafe_id = cafe ∧
        out = orderOut db o ∧ db2 = db) := by
  constructor
  · intro o hnodup hmem hid hcafe
    have hnone := selectOrderScoped_mismatch hnodup hmem hid hcafe
    exact ⟨by simp only [get_order, hnone], by simp only [confirm_order, hnone],
           by simp only [get_invoice, hnone]⟩
  · intro out db2 hok
    cases hscope : selectOrderScoped db oid cafe with
    | none =>
      simp only [get_order, hscope] at hok
      rw [Prod.mk.injEq] at hok
      exact absurd hok.1 (by simp)
    | some o =>
      simp only [get_order, hscope] at hok
      rw [Prod.mk.injEq] at hok
      obtain ⟨h1, h2⟩ := hok
      obtain ⟨hmem, hid, hcafe⟩ := selectOrderScoped_some hscope
      have hout : out = orderOut db o := by
        injection h1 with h1'
        exact h1'.symm
      exact ⟨o, hmem, hid, hcafe, hout, h2.symm⟩

/-- C5. `create_order` with an empty item list fails `EmptyOrder`; with any
unknown product id it fails listing exactly the set of missing ids; in both
cases the returned committed state is the input state — no order row and no
order-item row is created. -/
theorem create_order_validation (db : DBState) (cafe : Nat)
    (items : List (Nat × Int)) (comment : String) :
    (items = [] → create_order db cafe items comment = (.error .emptyOrder, db)) ∧
    ((∃ it ∈ items, findProduct db it.1 = none) →
      ∃ missing, create_order db cafe items comment =
          (.error (.unknownProducts missing), db) ∧
        ∀ pid, pid ∈ missing ↔
          ((∃ it ∈ items, it.1 = pid) ∧ findProduct db pid = none)) := by
  constructor
  · intro h
    subst h
    rfl
  · intro hmissing
    obtain ⟨it0, hit0, hnone⟩ := hmissing
    have hne : ¬ items.isEmpty := by
      intro hh
      rw [List.isEmpty_iff] at hh
      rw [hh] at hit0
      cases hit0
    have hm0 : it0.1 ∈ missingIds db items :=
      (mem_missingIds db items it0.1).mpr ⟨⟨it0, hit0, rfl⟩, hnone⟩
    have hmne : ¬ (missingIds db items).isEmpty := by
      intro hh
      rw [List.isEmpty_iff] at hh
      rw [hh] at hm0
      cases hm0
    refine ⟨missingIds db items, ?_, fun pid => mem_missingIds db items pid⟩
    simp only [create_order]
    rw [if_neg hne, if_neg hmne]

/-- C6. Each item of a successfully created order snapshots the product's
price at creation time into `OrderItem.price` (the product row exists for
every requested id), and nothing afterwards writes the snapshot: a later
product-price change touches only the products table, and every endpoint
leaves all existing order-item rows (prices included) in place. -/
theorem price_snapshot_immutable (db : DBState) (cafe : Nat)
    (items : List (Nat × Int)) (comment : String) (out : OrderOut) (db' : DBState)
    (hok : create_order db cafe items comment = (.ok out, db')) :
    db'.order_items = db.order_items ++
      items.map (fun it => ⟨db.next_order_id, it.1, it.2, priceOf db it.1⟩) ∧
    (∀ it ∈ items, ∃ p, findProduct db it.1 = some p ∧ priceOf db it.1 = p.price) ∧
    (∀ pid newPrice,
      (set_product_price db' pid newPrice).order_items = db'.order_items) ∧
    (∀ pdfOk2 cafe2 oid2,
      (confirm_order pdfOk2 db' cafe2 oid2).2.order_items = db'.order_items) ∧
    (∀ cafe2 oid2, (get_order db' cafe2 oid2).2.order_items = db'.order_items) ∧
    (∀ pdfOk2 cafe2 oid2,
      (get_invoice pdfOk2 db' cafe2 oid2).2.order_items = db'.order_items) ∧
    (∀ cafe2 items2 comment2, ∃ rest,
      (create_order db' cafe2 items2 comment2).2.order_items =
        db'.order_items ++ rest) := by
  obtain ⟨hne, hmiss, hdb'⟩ := create_order_ok_state hok
  refine ⟨by rw [hdb'], ?_, fun pid newPrice => rfl,
    fun pdfOk2 cafe2 oid2 => confirm_order_order_items pdfOk2 db' cafe2 oid2,
    fun cafe2 oid2 => by rw [get_order_snd],
    fun pdfOk2 cafe2 oid2 => (get_invoice_frame pdfOk2 db' cafe2 oid2).2.2.2,
    fun cafe2 items2 comment2 => create_order_appends db' cafe2 items2 comment2⟩
  intro it hit
  cases hp : findProduct db it.1 with
  | none =>
    exfalso
    have : it.1 ∈ missingIds db items :=
      (mem_missingIds db items it.1).mpr ⟨⟨it, hit, rfl⟩, hp⟩
    rw [hmiss] at this
    cases this
  | some p =>
    refine ⟨p, rfl, ?_⟩
    rw [priceOf, hp]

/-- C8. When the stock check and decrement succeed, a failing invoice
rendering (`pdfOk = false`) does not roll back the decrement or the status
flip and does not fail the request: confirm returns the same success body
`{ok, status: confirmed, invoice_url}` as with a working renderer, only the
PDF file is absent — and a later invoice fetch regenerates it on demand. -/
theorem confirm_invoice_failure_nonfatal (db : DBState) (cafe oid : Nat)
    (o : Order) (inv' : List Inventory)
    (hscope : selectOrderScoped db oid cafe = some o)
    (hpend : o.status = OrderStatus.pending)
    (hdec : decrementItems (itemsOf db oid) db.inventory = .ok inv') :
    ∃ dbf, confirm_order false db cafe oid = (.ok ⟨true, "confirmed", oid⟩, dbf) ∧
      dbf.inventory = inv' ∧
      dbf.orders = setOrderStatus db.orders oid .confirmed ∧
      dbf.invoice_files = db.invoice_files ∧
      (confirm_order true db cafe oid).1 = (confirm_order false db cafe oid).1 ∧
      (get_invoice true dbf cafe oid).1 = .ok oid := by
  obtain ⟨hmem, hid, hcafe⟩ := selectOrderScoped_some hscope
  have hfind : db.orders.find? (fun x => x.id == oid && x.cafe_id == cafe) = some o :=
    hscope
  refine ⟨⟨db.products, inv', setOrderStatus db.orders oid .confirmed,
    db.order_items, db.next_order_id, db.invoice_files⟩, ?_, rfl, rfl, rfl, ?_, ?_⟩
  · simp only [confirm_order, hscope]
    rw [if_neg (not_not_intro hpend), hdec]
    rfl
  · simp only [confirm_order, hscope, if_neg (not_not_intro hpend), hdec]
  · have hscope' : selectOrderScoped
        (⟨db.products, inv', setOrderStatus db.orders oid .confirmed,
          db.order_items, db.next_order_id, db.invoice_files⟩ : DBState) oid cafe =
        some ⟨o.id, o.cafe_id, .confirmed, o.comment⟩ := by
      show (setOrderStatus db.orders oid .confirmed).find? _ = _
      rw [find_scoped_setStatus, hfind]
      simp [hid]
    simp only [get_invoice, hscope']
    by_cases hmemf : oid ∈ db.invoice_files
    · rw [if_pos hmemf]
    · rw [if_neg hmemf]
      rfl

/-- C9. Starting from non-negative stock, every endpoint leaves every
`Inventory.qty` non-negative, and only confirmation mutates the inventory at
all: `create_order`, `get_order` and `get_invoice` return it unchanged
(`list_products` and `list_my_orders` are pure reads returning no state).
Inside one confirm the check of each successive line item runs against the
quantity already decremented by the earlier items of the same order
(`decrementItems` threads the running inventory), so even an order with
several items for one product can never drive a quantity below zero. -/
theorem inventory_nonneg_invariant (pdfOk : Bool) (db : DBState)
    (cafe oid : Nat) (items : List (Nat × Int)) (comment : String)
    (hnn : ∀ r ∈ db.inventory, 0 ≤ r.qty) :
    (∀ r ∈ (confirm_order pdfOk db cafe oid).2.inventory, 0 ≤ r.qty) ∧
    (create_order db cafe items comment).2.inventory = db.inventory ∧
    (get_order db cafe oid).2.inventory = db.inventory ∧
    (get_invoice pdfOk db cafe oid).2.inventory = db.inventory := by
  refine ⟨?_, ?_, by rw [get_order_snd], (get_invoice_frame pdfOk db cafe oid).2.1⟩
  · cases hres : confirm_order pdfOk db cafe oid with
    | mk res st =>
      cases res with
      | error e =>
        have hst := confirm_order_error_state hres
        rw [hst]
        exact hnn
      | ok r =>
        obtain ⟨o, inv', _, _, hdec, _, hdb'⟩ := confirm_order_ok_state hres
        rw [hdb']
        exact decrementItems_nonneg hnn hdec
  · cases hres : create_order db cafe items comment with
    | mk res st =>
      cases res with
      | error e =>
        have hst := create_order_error_state hres
        rw [hst]
      | ok out =>
        obtain ⟨_, _, hdb'⟩ := create_order_ok_state hres
        rw [hdb']

/-- C10. `list_products` reports one entry per product — none dropped: the
output has the same length as the products table and contains, for every
product, the entry carrying that product's id, name, price, and as stock the
inventory quantity of its row when one exists and 0 when the left join finds
none; conversely every entry comes from a product row this way. -/
theorem list_products_left_join (db : DBState) :
    (list_products db).length = db.products.length ∧
    (∀ p, p ∈ db.products →
      (⟨p.id, p.name, p.price, stockOf db p.id⟩ : ProductOut) ∈ list_products db) ∧
    (∀ po, po ∈ list_products db →
      ∃ p, p ∈ db.products ∧ po = ⟨p.id, p.name, p.price, stockOf db p.id⟩) ∧
    (∀ pid r, findInv db.inventory pid = some r → stockOf db pid = r.qty) ∧
    (∀ pid, findInv db.inventory pid = none → stockOf db pid = 0) := by
  refine ⟨?_, ?_, ?_, ?_, ?_⟩
  · rw [list_products, List.length_map]
    exact (List.perm_insertionSort _ _).length_eq
  · intro p hp
    rw [list_products]
    exact List.mem_map.mpr
      ⟨p, (List.perm_insertionSort _ _).mem_iff.mpr hp, rfl⟩
  · intro po hpo
    rw [list_products] at hpo
    obtain ⟨p, hp, hpe⟩ := List.mem_map.1 hpo
    exact ⟨p, (List.perm_insertionSort _ _).mem_iff.mp hp, hpe.symm⟩
  · intro pid r h
    rw [stockOf, lookupQty, h]
    rfl
  · intro pid h
    rw [stockOf, lookupQty, h]
    rfl

/-- C7 exhibit. A committed state with one product at stock 1 and two pending
one-unit orders for it (N = 2, S = 1, Q = 1, so the claim allows at most
floor(S/Q) = 1 confirmation): under the read–read–commit–commit interleaving
that the unlocked check-then-decrement permits, both confirmations succeed —
both orders end confirmed with the success body returned — exceeding the
claimed bound, while the final quantity is 0 (the second commit overwrote the
first's decrement). -/
theorem confirm_race_lost_update :
    (interleavedConfirmPair
      ⟨[⟨1, "Croissant", 320⟩], [⟨1, 1⟩],
       [⟨10, 1, .pending, ""⟩, ⟨11, 1, .pending, ""⟩],
       [⟨10, 1, 1, 320⟩, ⟨11, 1, 1, 320⟩], 12, []⟩ 1 10 11).1 = (true, true) ∧
    ((interleavedConfirmPair
      ⟨[⟨1, "Croissant", 320⟩], [⟨1, 1⟩],
       [⟨10, 1, .pending, ""⟩, ⟨11, 1, .pending, ""⟩],
       [⟨10, 1, 1, 320⟩, ⟨11, 1, 1, 320⟩], 12, []⟩ 1 10 11).2.orders.filter
        (fun o => o.status == OrderStatus.confirmed)).length = 2 ∧
    lookupQty (interleavedConfirmPair
      ⟨[⟨1, "Croissant", 320⟩], [⟨1, 1⟩],
       [⟨10, 1, .pending, ""⟩, ⟨11, 1, .pending, ""⟩],
       [⟨10, 1, 1, 320⟩, ⟨11, 1, 1, 320⟩], 12, []⟩ 1 10 11).2.inventory 1 =
      some 0 := by
  refine ⟨rfl, rfl, rfl⟩

/-! ### Concrete witnesses -/

/-- C1 at `dbW`: cafe 2 confirms its pending order 11, whose single item's
product (id 3) has no inventory row. -/
theorem confirm_insufficient_stock_atomic_witness :
    ∃ pid, confirm_order true dbW 2 11 = (.error (.insufficientStock pid), dbW) ∧
      (∃ it ∈ itemsOf dbW 11, it.product_id = pid) ∧
      (lookupQty dbW.inventory pid = none ∨
       ∃ q, lookupQty dbW.inventory pid = some q ∧
         q < totalQty (itemsOf dbW 11) pid) :=
  confirm_insufficient_stock_atomic true dbW 2 11 ⟨11, 2, .pending, ""⟩
    (by decide) (by decide) (by decide)
    ⟨⟨11, 3, 1, 500⟩, by decide, Or.inl (by decide)⟩

/-- C2 at `dbW`: cafe 1 confirms its pending order 10 (2 of product 1,
1 of product 2 against stocks 5 and 3). -/
theorem confirm_success_decrements_witness :
    ∃ db', confirm_order true dbW 1 10 = (.ok ⟨true, "confirmed", 10⟩, db') ∧
      (∀ p, lookupQty db'.inventory p =
        (lookupQty dbW.inventory p).map (fun q => q - totalQty (itemsOf dbW 10) p)) ∧
      db'.orders = setOrderStatus dbW.orders 10 .confirmed ∧
      selectOrderScoped db' 10 1 = some ⟨10, 1, .confirmed, ""⟩ ∧
      db'.order_items = dbW.order_items := by
  refine confirm_success_decrements true dbW 1 10 ⟨10, 1, .pending, ""⟩
    (by decide) (by decide) (by decide) ?_
  intro it hit
  have hits : itemsOf dbW 10 = [⟨10, 1, 2, 320⟩, ⟨10, 2, 1, 280⟩] := by decide
  rw [hits] at hit
  rcases (by simpa using hit : it = ⟨10, 1, 2, 320⟩ ∨ it = ⟨10, 2, 1, 280⟩) with h | h
  · subst h
    exact ⟨5, by decide, by decide⟩
  · subst h
    exact ⟨3, by decide, by decide⟩

/-- C3 at `dbW`: confirming the already-confirmed order 12 fails
`InvalidState` with the state unchanged, and after a first successful confirm
of order 10 a second confirm fails `InvalidState` leaving the confirmed state
as is. -/
theorem confirm_non_pending_invalid_witness :
    confirm_order true dbW 1 12 = (.error .invalidState, dbW) ∧
    confirm_order false ((confirm_order true dbW 1 10).2) 1 10 =
      (.error .invalidState, (confirm_order true dbW 1 10).2) :=
  ⟨(confirm_non_pending_invalid true false dbW 1 12).1 ⟨12, 1, .confirmed, ""⟩
      (by decide) (by decide),
   (confirm_non_pending_invalid true false dbW 1 10).2 ⟨true, "confirmed", 10⟩
      ((confirm_order true dbW 1 10).2) rfl⟩

/-- C4 at `dbW`: cafe 2 probing cafe 1's order 10 gets `NotFound` from all
three endpoints; cafe 1 itself gets order 10's data. -/
theorem tenant_scoping_not_found_witness :
    (get_order dbW 2 10 = (.error .notFound, dbW) ∧
     confirm_order true dbW 2 10 = (.error .notFound, dbW) ∧
     get_invoice true dbW 2 10 = (.error .notFound, dbW)) ∧
    (∃ o, o ∈ dbW.orders ∧ o.id = 10 ∧ o.cafe_id = 1 ∧
      orderOut dbW ⟨10, 1, .pending, ""⟩ = orderOut dbW o ∧ dbW = dbW) :=
  ⟨(tenant_scoping_not_found true dbW 2 10).1 ⟨10, 1, .pending, ""⟩
      (by decide) (by decide) (by decide) (by decide),
   (tenant_scoping_not_found true dbW 1 10).2 (orderOut dbW ⟨10, 1, .pending, ""⟩)
      dbW rfl⟩

/-- C5 at `dbW`: an empty request fails `EmptyOrder`; a request naming the
unknown product 9 fails listing exactly the missing ids; neither writes. -/
theorem create_order_validation_witness :
    create_order dbW 1 [] "c" = (.error .emptyOrder, dbW) ∧
    (∃ missing, create_order dbW 1 [(1, 2), (9, 1)] "c" =
        (.error (.unknownProducts missing), dbW) ∧
      ∀ pid, pid ∈ missing ↔
        ((∃ it ∈ [((1 : Nat), (2 : Int)), (9, 1)], it.1 = pid) ∧
          findProduct dbW pid = none)) :=
  ⟨(create_order_validation dbW 1 [] "c").1 rfl,
   (create_order_validation dbW 1 [(1, 2), (9, 1)] "c").2
      ⟨(9, 1), by decide, by decide⟩⟩

/-- C6 at `dbW`: a created order's items snapshot the current prices, and the
snapshot survives every later operation. -/
theorem price_snapshot_immutable_witness :
    (create_order dbW 1 [(1, 1), (2, 2)] "w").2.order_items =
      dbW.order_items ++ [((1 : Nat), (1 : Int)), (2, 2)].map
        (fun it => ⟨dbW.next_order_id, it.1, it.2, priceOf dbW it.1⟩) ∧
    (∀ it ∈ [((1 : Nat), (1 : Int)), (2, 2)],
      ∃ p, findProduct dbW it.1 = some p ∧ priceOf dbW it.1 = p.price) := by
  have h := price_snapshot_immutable dbW 1 [(1, 1), (2, 2)] "w"
    ⟨13, 1, "pending", [⟨1, "Croissant", 1⟩, ⟨2, "Baguette", 2⟩]⟩
    ((create_order dbW 1 [(1, 1), (2, 2)] "w").2) rfl
  exact ⟨h.1, h.2.1⟩

/-- C8 at `dbW`: confirming order 10 with a broken PDF renderer still
succeeds and commits (stocks 5→3 and 3→2), writes no file, and the invoice
is generated on the next fetch. -/
theorem confirm_invoice_failure_nonfatal_witness :
    ∃ dbf, confirm_order false dbW 1 10 = (.ok ⟨true, "confirmed", 10⟩, dbf) ∧
      dbf.inventory = [⟨1, 3⟩, ⟨2, 2⟩] ∧
      dbf.orders = setOrderStatus dbW.orders 10 .confirmed ∧
      dbf.invoice_files = dbW.invoice_files ∧
      (confirm_order true dbW 1 10).1 = (confirm_order false dbW 1 10).1 ∧
      (get_invoice true dbf 1 10).1 = .ok 10 :=
  confirm_invoice_failure_nonfatal dbW 1 10 ⟨10, 1, .pending, ""⟩ [⟨1, 3⟩, ⟨2, 2⟩]
    (by decide) (by decide) rfl

/-- C9 at `dbW`: the non-negativity invariant after a confirm, and the
inventory-frame facts for the other endpoints. -/
theorem inventory_nonneg_invariant_witness :
    (∀ r ∈ (confirm_order true dbW 1 10).2.inventory, 0 ≤ r.qty) ∧
    (create_order dbW 1 [(1, 1)] "c").2.inventory = dbW.inventory ∧
    (get_order dbW 1 10).2.inventory = dbW.inventory ∧
    (get_invoice true dbW 1 10).2.inventory = dbW.inventory :=
  inventory_nonneg_invariant true dbW 1 10 [(1, 1)] "c" (by decide)

/-- C10 at `dbW`: the catalog listing covers all three products, reports
product 1 with its inventory quantity, and product 3 (no inventory row) with
stock 0. -/
theorem list_products_left_join_witness :
    (list_products dbW).length = dbW.products.length ∧
    (⟨1, "Croissant", 320, stockOf dbW 1⟩ : ProductOut) ∈ list_products dbW ∧
    stockOf dbW 3 = 0 :=
  ⟨(list_products_left_join dbW).1,
   (list_products_left_join dbW).2.1 ⟨1, "Croissant", 320⟩ (by decide),
   (list_products_left_join dbW).2.2.2.2 3 (by decide)⟩

end Bakery
